import Mathlib

/-!
Verification of the School LMS backend's serialization and listing/sorting
layer (`src/main.py`), over a shallow embedding of its documents and
operations.

A stored document is an insertion-ordered dictionary from string keys to
dynamic values (Python `dict`), embedded as an association list with the
dictionary operations `get` / item assignment / `pop` translated one-to-one.
Python's `sorted` is a stable sort ascending in the key; it is embedded as
Mathlib's `List.insertionSort`, which is likewise stable
(`List.pair_sublist_insertionSort`) and sorted, and therefore produces the
same output for the total preorders used here.
-/

namespace SchoolLMS

/-- Dynamic value stored in a document field.  Timestamps (`datetime`) are
embedded as `Nat` offsets from `datetime.min`, so `0` is the earliest
possible timestamp.  `vObjectId` is the store-assigned internal identifier,
`vNone` is Python `None`. -/
inductive Value where
  | vStr (s : String)
  | vDatetime (t : Nat)
  | vInt (n : Int)
  | vNone
  | vObjectId (oid : String)
  deriving DecidableEq

/-- `true` exactly on timestamp values (`isinstance(v, datetime)`). -/
def Value.isDatetime : Value → Bool
  | Value.vDatetime _ => true
  | _ => false

/-- A stored document: insertion-ordered key/value pairs (a Python `dict`;
keys are unique in any dict-produced document, stated as `Nodup` where a
proof needs it). -/
abbrev Doc := List (String × Value)

/-- `doc.get(k)` / `doc[k]` read: first (in a real dict, only) value at
key `k`, or absent. -/
def Doc.get : Doc → String → Option Value
  | [], _ => none
  | (k0, v0) :: rest, k => if k0 = k then some v0 else Doc.get rest k

/-- `doc[k] = v` assignment: overwrite the value at key `k` in place,
or append the new pair at the end when the key is absent. -/
def Doc.set : Doc → String → Value → Doc
  | [], k, v => [(k, v)]
  | (k0, v0) :: rest, k, v =>
    if k0 = k then (k, v) :: rest else (k0, v0) :: Doc.set rest k v

/-- `doc.pop(k, None)`: remove the entry at key `k` when present. -/
def Doc.pop : Doc → String → Doc
  | [], _ => []
  | (k0, v0) :: rest, k => if k0 = k then rest else (k0, v0) :: Doc.pop rest k

/-- Modelled Python builtin: `str(v)` for the embedded values.  `str` of an
`ObjectId` is its hex string; `str(None)` is `"None"`; the textual form of a
`datetime` is abstracted as an injective rendering of its offset. -/
def pyStr : Value → String
  | Value.vStr s => s
  | Value.vDatetime t => "datetime<" ++ toString t ++ ">"
  | Value.vInt n => toString n
  | Value.vNone => "None"
  | Value.vObjectId oid => oid

/-- Modelled Python builtin: `str(o)` where `o` is `doc.get(k)`, i.e. a value
or `None` for a missing key. -/
def pyStrOpt : Option Value → String
  | none => "None"
  | some v => pyStr v

/-- Modelled Python builtin: `datetime.isoformat`, abstracted as an injective
ISO-8601 rendering of the timestamp offset. -/
def isoformat (t : Nat) : String :=
  "iso<" ++ toString t ++ ">"

/-- The per-field transform of `_serialize`'s datetime loop: a timestamp
becomes its ISO-8601 text, everything else passes through. -/
def serializeValue : Value → Value
  | Value.vDatetime t => Value.vStr (isoformat t)
  | v => v

/-- `_serialize` (src/main.py:43-52): empty documents pass through; otherwise
set `doc["id"] = str(doc.get("_id"))`, `doc.pop("_id", None)`, then convert
every `datetime` value to `isoformat`. -/
def _serialize (doc : Doc) : Doc :=
  match doc with
  | [] => []
  | _ =>
    let d1 := (Doc.set doc "id" (Value.vStr (pyStrOpt (Doc.get doc "_id")))).pop "_id"
    d1.map (fun p => (p.1, serializeValue p.2))

/-- Sort key for date-like fields: `d.get(f, datetime.min)`.  A missing field
defaults to `datetime.min`, i.e. offset `0`.  (A present non-datetime value
would make Python's comparison raise; theorems guard that region with
`dtwf`.) -/
def dtKey (d : Doc) (f : String) : Nat :=
  match Doc.get d f with
  | some (Value.vDatetime t) => t
  | _ => 0

/-- Well-formedness guard for date-like sort fields: the field, when present,
holds a timestamp (as every schema-validated record does). -/
def dtwf (d : Doc) (f : String) : Bool :=
  match Doc.get d f with
  | some v => v.isDatetime
  | none => true

/-- Descending comparison used with `sorted(..., reverse=True)` on field `f`:
`a` precedes `b` when `b`'s key is at most `a`'s. -/
def descLE (f : String) (a b : Doc) : Prop :=
  dtKey b f ≤ dtKey a f

/-- Ascending comparison used with `sorted(...)` on field `f`. -/
def ascLE (f : String) (a b : Doc) : Prop :=
  dtKey a f ≤ dtKey b f

instance (f : String) : DecidableRel (descLE f) :=
  fun _ _ => Nat.decLe _ _

instance (f : String) : DecidableRel (ascLE f) :=
  fun _ _ => Nat.decLe _ _

/-- Modelled Python builtin: ASCII case folding of a single character, as
`str.lower` acts on the ASCII weekday names. -/
def lowerChar (c : Char) : Char :=
  if 65 ≤ c.toNat ∧ c.toNat ≤ 90 then Char.ofNat (c.toNat + 32) else c

/-- Modelled Python builtin: `s.lower()`, character-wise ASCII lowering. -/
def pyLower (s : String) : String :=
  String.mk (s.data.map lowerChar)

/-- Modelled Python builtin: `a <= b` on strings, lexicographic by character
code point (`true` when `a` sorts no later than `b`). -/
def strLeB : List Char → List Char → Bool
  | [], _ => true
  | _ :: _, [] => false
  | a :: as, b :: bs =>
    if a < b then true
    else if b < a then false
    else strLeB as bs

/-- The weekday order map of `list_schedule` (src/main.py:127):
lowercased weekday name to index, Monday = 0 through Sunday = 6. -/
def weekdayOrder (s : String) : Option Nat :=
  if s = "monday" then some 0
  else if s = "tuesday" then some 1
  else if s = "wednesday" then some 2
  else if s = "thursday" then some 3
  else if s = "friday" then some 4
  else if s = "saturday" then some 5
  else if s = "sunday" then some 6
  else none

/-- Composite sort key of `list_schedule` (src/main.py:130-133):
`(order.get(str(d.get("day", "")).lower(), 7), str(d.get("start_time", "")))`.
`pyLower` is the ASCII lowering, agreeing with Python `.lower()` on the
ASCII weekday names. -/
def scheduleKey (d : Doc) : Nat × String :=
  ((weekdayOrder (pyLower (pyStr ((Doc.get d "day").getD (Value.vStr ""))))).getD 7,
   pyStr ((Doc.get d "start_time").getD (Value.vStr "")))

/-- The weekday-index component of the schedule key. -/
def schedDayIdx (d : Doc) : Nat :=
  (scheduleKey d).1

/-- Lexicographic comparison of schedule keys, as Python compares the
2-tuples: first component strictly smaller, or equal first components and
second component at most (string comparison is lexicographic by code
point, `strLeB` on the character data). -/
def schedKeyLE (p q : Nat × String) : Prop :=
  p.1 < q.1 ∨ (p.1 = q.1 ∧ strLeB p.2.data q.2.data = true)

instance : DecidableRel schedKeyLE :=
  fun _ _ => inferInstanceAs (Decidable (_ ∨ _))

/-- The schedule ordering on documents. -/
def schedLE (a b : Doc) : Prop :=
  schedKeyLE (scheduleKey a) (scheduleKey b)

instance : DecidableRel schedLE :=
  fun _ _ => inferInstanceAs (Decidable (schedKeyLE _ _))

/-- The sort of `list_schedule` (src/main.py:128-134). -/
def sortSchedule (docs : List Doc) : List Doc :=
  List.insertionSort schedLE docs

/-- `sorted(docs, key=lambda d: d.get(f, datetime.min), reverse=True)`:
the descending stable sort used by `list_feed` (`created_at`),
`list_lessons` (`date`) and `list_grades` (`date`). -/
def sortDescBy (f : String) (docs : List Doc) : List Doc :=
  List.insertionSort (descLE f) docs

/-- `sorted(docs, key=lambda d: d.get(f, datetime.min))`: the ascending
stable sort used by `list_assessments` (`due_date`). -/
def sortAscBy (f : String) (docs : List Doc) : List Doc :=
  List.insertionSort (ascLE f) docs

/-- `list_feed` (src/main.py:100-104), from the fetched documents on. -/
def list_feed (docs : List Doc) : List Doc :=
  (sortDescBy "created_at" docs).map _serialize

/-- `list_schedule` (src/main.py:123-135), from the fetched documents on. -/
def list_schedule (docs : List Doc) : List Doc :=
  (sortSchedule docs).map _serialize

/-- `list_lessons` (src/main.py:146-150), from the fetched documents on. -/
def list_lessons (docs : List Doc) : List Doc :=
  (sortDescBy "date" docs).map _serialize

/-- `list_grades` (src/main.py:161-165), from the fetched documents on. -/
def list_grades (docs : List Doc) : List Doc :=
  (sortDescBy "date" docs).map _serialize

/-- `list_assessments` (src/main.py:176-180), from the fetched documents on. -/
def list_assessments (docs : List Doc) : List Doc :=
  (sortAscBy "due_date" docs).map _serialize

/-- Errors that the accessor layer can signal.  `_collection` raises
`HTTPException(status_code, detail)`. -/
inductive ApiError where
  | httpException (status : Nat) (detail : String)
  deriving DecidableEq

/-- The uniform store-unavailable signal: what the service raises whenever the
document store was never configured (`db is None`). -/
def storeUnavailable : ApiError :=
  ApiError.httpException 500 "Database not configured"

/-- The configured document store: named collections of stored documents. -/
structure Store where
  collections : String → List Doc

/-- `_collection` (src/main.py:37-40): raise `HTTPException(500, "Database
not configured")` when `db is None`, otherwise hand back `db[name]` — for
any name, a collection is returned (a document store creates collections on
access). -/
def _collection (db : Option Store) (name : String) : Except ApiError (List Doc) :=
  match db with
  | none => Except.error storeUnavailable
  | some store => Except.ok (store.collections name)

/-- Equality-predicate filter match: the document carries every key/value
pair of the filter (an empty filter matches all). -/
def matchesFilter (filt : List (String × Value)) (d : Doc) : Bool :=
  filt.all (fun kv => Doc.get d kv.1 == some kv.2)

/-- Modelled from the spec: `get_documents` lives in `database.py`, which is
not among the sources here.  Per spec sections 4.1 and 7, every Accessor call
signals the store-unavailable condition when the store was never configured,
and otherwise returns the records matching the equality filter, capped at the
limit when one is given. -/
def get_documents (db : Option Store) (name : String)
    (filt : List (String × Value)) (limit : Option Nat) :
    Except ApiError (List Doc) :=
  match db with
  | none => Except.error storeUnavailable
  | some store =>
    let matching := (store.collections name).filter (matchesFilter filt)
    Except.ok (match limit with
      | none => matching
      | some n => matching.take n)

/-- Modelled from the spec: `create_document` lives in `database.py`, which
is not among the sources here.  Per spec sections 4.1 and 7, every insertion
call signals the store-unavailable condition when the store was never
configured, and otherwise appends the record to the named collection and
returns the assigned identifier. -/
def create_document (db : Option Store) (name : String) (record : Doc) :
    Except ApiError (Store × String) :=
  match db with
  | none => Except.error storeUnavailable
  | some store =>
    let oid := "oid-" ++ toString (store.collections name).length
    let stored := Doc.set record "_id" (Value.vObjectId oid)
    Except.ok
      ({ collections := fun n =>
          if n = name then store.collections name ++ [stored]
          else store.collections n },
       oid)

/-! ### Concrete documents used as witnesses and counterexamples -/

/-- A schedule record with an unrecognized day name and the earliest
possible start time. -/
def fundayDoc : Doc :=
  [("day", Value.vStr "Funday"), ("start_time", Value.vStr "00:01"),
   ("subject", Value.vStr "Mystery")]

/-- A schedule record on Monday with the latest start time of the day. -/
def monLateDoc : Doc :=
  [("day", Value.vStr "Monday"), ("start_time", Value.vStr "23:59"),
   ("subject", Value.vStr "Math")]

/-- Schedule listing input: the unrecognized day first. -/
def schedDemo : List Doc :=
  [fundayDoc, monLateDoc]

/-- A feed post lacking `created_at`. -/
def feedNoDate : Doc :=
  [("author_name", Value.vStr "Ms. Carter")]

/-- A feed post whose `created_at` is the earliest possible timestamp. -/
def feedAtMin : Doc :=
  [("author_name", Value.vStr "Sports Dept."), ("created_at", Value.vDatetime 0)]

/-- A feed post with a strictly later `created_at`. -/
def feedLater : Doc :=
  [("author_name", Value.vStr "Science Club"), ("created_at", Value.vDatetime 7)]

/-- An assessment whose `due_date` is the earliest possible timestamp. -/
def assessAtMin : Doc :=
  [("title", Value.vStr "Lab Report"), ("due_date", Value.vDatetime 0)]

/-- An assessment lacking `due_date`. -/
def assessNoDate : Doc :=
  [("title", Value.vStr "Midterm")]

/-- An assessment with a strictly later `due_date`. -/
def assessLater : Doc :=
  [("title", Value.vStr "Final"), ("due_date", Value.vDatetime 9)]

/-- Two grade records with the same `date`, distinguishable by assignment. -/
def gradeA : Doc :=
  [("assignment", Value.vStr "Quiz"), ("date", Value.vDatetime 3)]

/-- Second grade record with the same `date` as `gradeA`. -/
def gradeB : Doc :=
  [("assignment", Value.vStr "Essay"), ("date", Value.vDatetime 3)]

/-- A stored grade record as fetched from the store. -/
def storedGrade : Doc :=
  [("_id", Value.vObjectId "g1"), ("subject", Value.vStr "Math"),
   ("date", Value.vDatetime 4)]

/-- A stored schedule record as fetched from the store, with "HH:MM"
string fields. -/
def storedSched : Doc :=
  [("_id", Value.vObjectId "s1"), ("day", Value.vStr "Monday"),
   ("start_time", Value.vStr "08:00")]

/-- The output of a first serialization: string `id`, no `_id`, all values
plain strings. -/
def alreadySerialized : Doc :=
  [("id", Value.vStr "64ab"), ("author_name", Value.vStr "Ms. Carter")]

/-- A non-empty record lacking the internal `_id` entirely. -/
def authorOnly : Doc :=
  [("author_name", Value.vStr "Sports Dept.")]

/-! ### Dictionary lemmas -/

theorem Doc.get_set_self (d : Doc) (k : String) (v : Value) :
    Doc.get (Doc.set d k v) k = some v := by
  induction d with
  | nil => simp [Doc.set, Doc.get]
  | cons p rest ih =>
    obtain ⟨k0, v0⟩ := p
    by_cases h : k0 = k
    · simp [Doc.set, h, Doc.get]
    · simp [Doc.set, h, Doc.get, ih]

theorem Doc.get_set_ne (d : Doc) (k : String) (v : Value) (k' : String) (h : k' ≠ k) :
    Doc.get (Doc.set d k v) k' = Doc.get d k' := by
  have hkk : ¬ k = k' := fun hh => h hh.symm
  induction d with
  | nil => simp [Doc.set, Doc.get, hkk]
  | cons p rest ih =>
    obtain ⟨k0, v0⟩ := p
    by_cases hk : k0 = k
    · subst hk
      simp [Doc.set, Doc.get, hkk]
    · by_cases hk' : k0 = k'
      · simp [Doc.set, hk, Doc.get, hk', h]
      · simp [Doc.set, hk, Doc.get, hk', ih]

theorem Doc.get_pop_ne (d : Doc) (k k' : String) (h : k' ≠ k) :
    Doc.get (Doc.pop d k) k' = Doc.get d k' := by
  induction d with
  | nil => simp [Doc.pop]
  | cons p rest ih =>
    obtain ⟨k0, v0⟩ := p
    by_cases hk : k0 = k
    · subst hk
      have : ¬ k0 = k' := fun hh => h (hh.symm)
      simp [Doc.pop, Doc.get, this]
    · simp [Doc.pop, hk, Doc.get, ih]

theorem Doc.get_eq_none_iff (d : Doc) (k : String) :
    Doc.get d k = none ↔ k ∉ d.map Prod.fst := by
  induction d with
  | nil => simp [Doc.get]
  | cons p rest ih =>
    obtain ⟨k0, v0⟩ := p
    by_cases hk : k0 = k
    · simp [Doc.get, hk]
    · have hkk : ¬ k = k0 := fun hh => hk hh.symm
      simp [Doc.get, hk, ih, hkk]

theorem Doc.pop_of_get_none (d : Doc) (k : String) (h : Doc.get d k = none) :
    Doc.pop d k = d := by
  induction d with
  | nil => rfl
  | cons p rest ih =>
    obtain ⟨k0, v0⟩ := p
    by_cases hk : k0 = k
    · simp [Doc.get, hk] at h
    · simp [Doc.get, hk] at h
      simp [Doc.pop, hk, ih h]

theorem Doc.get_pop_self (d : Doc) (k : String) (h : (d.map Prod.fst).Nodup) :
    Doc.get (Doc.pop d k) k = none := by
  induction d with
  | nil => simp [Doc.pop, Doc.get]
  | cons p rest ih =>
    obtain ⟨k0, v0⟩ := p
    simp only [List.map_cons, List.nodup_cons] at h
    by_cases hk : k0 = k
    · subst hk
      simp only [Doc.pop, if_pos rfl]
      exact (Doc.get_eq_none_iff rest k0).mpr h.1
    · simp [Doc.pop, hk, Doc.get, ih h.2]

theorem Doc.mem_keys_set {a : String} (d : Doc) (k : String) (v : Value)
    (h : a ∈ (Doc.set d k v).map Prod.fst) : a ∈ d.map Prod.fst ∨ a = k := by
  induction d with
  | nil => simpa [Doc.set] using h
  | cons p rest ih =>
    obtain ⟨k0, v0⟩ := p
    by_cases hk : k0 = k
    · simp only [Doc.set, if_pos hk, List.map_cons, List.mem_cons] at h
      rcases h with h | h
      · exact Or.inr h
      · exact Or.inl (by simp [h])
    · simp only [Doc.set, if_neg hk, List.map_cons, List.mem_cons] at h
      rcases h with h | h
      · exact Or.inl (by simp [h])
      · rcases ih h with h2 | h2
        · exact Or.inl (by simp [h2])
        · exact Or.inr h2

theorem Doc.nodup_keys_set (d : Doc) (k : String) (v : Value)
    (h : (d.map Prod.fst).Nodup) : ((Doc.set d k v).map Prod.fst).Nodup := by
  induction d with
  | nil => simp [Doc.set]
  | cons p rest ih =>
    obtain ⟨k0, v0⟩ := p
    simp only [List.map_cons, List.nodup_cons] at h
    by_cases hk : k0 = k
    · subst hk
      simpa [Doc.set, List.nodup_cons] using h
    · simp only [Doc.set, if_neg hk, List.map_cons, List.nodup_cons]
      refine ⟨fun hmem => ?_, ih h.2⟩
      rcases Doc.mem_keys_set rest k v hmem with h2 | h2
      · exact h.1 h2
      · exact hk h2

theorem Doc.get_map_serialize (d : Doc) (k : String) :
    Doc.get (d.map (fun p => (p.1, serializeValue p.2))) k
      = (Doc.get d k).map serializeValue := by
  induction d with
  | nil => simp [Doc.get]
  | cons p rest ih =>
    obtain ⟨k0, v0⟩ := p
    by_cases hk : k0 = k
    · simp [Doc.get, hk]
    · simp [Doc.get, hk, ih]

theorem Doc.mem_set {p : String × Value} {d : Doc} {k : String} {v : Value}
    (h : p ∈ Doc.set d k v) : p ∈ d ∨ p = (k, v) := by
  induction d with
  | nil => simpa [Doc.set] using h
  | cons q rest ih =>
    obtain ⟨k0, v0⟩ := q
    by_cases hk : k0 = k
    · simp only [Doc.set, if_pos hk, List.mem_cons] at h
      rcases h with h | h
      · exact Or.inr h
      · exact Or.inl (List.mem_cons_of_mem _ h)
    · simp only [Doc.set, if_neg hk, List.mem_cons] at h
      rcases h with h | h
      · exact Or.inl (by simp [h])
      · rcases ih h with h2 | h2
        · exact Or.inl (List.mem_cons_of_mem _ h2)
        · exact Or.inr h2

theorem serializeValue_eq_self {v : Value} (h : Value.isDatetime v = false) :
    serializeValue v = v := by
  cases v with
  | vDatetime t => simp [Value.isDatetime] at h
  | vStr s => rfl
  | vInt n => rfl
  | vNone => rfl
  | vObjectId oid => rfl

theorem map_serializeValue_eq_self {d : Doc}
    (h : ∀ p ∈ d, Value.isDatetime p.2 = false) :
    d.map (fun p => (p.1, serializeValue p.2)) = d := by
  induction d with
  | nil => rfl
  | cons p rest ih =>
    simp only [List.map_cons]
    rw [serializeValue_eq_self (h p (List.mem_cons_self p rest)),
      ih (fun q hq => h q (List.mem_cons_of_mem p hq))]

theorem serialize_of_ne_nil {doc : Doc} (h : doc ≠ []) :
    _serialize doc
      = ((Doc.set doc "id" (Value.vStr (pyStrOpt (Doc.get doc "_id")))).pop "_id").map
          (fun p => (p.1, serializeValue p.2)) := by
  cases doc with
  | nil => exact absurd rfl h
  | cons p rest => rfl

/-! ### Order lemmas -/

theorem strLeB_total : ∀ as bs : List Char, strLeB as bs = true ∨ strLeB bs as = true
  | [], _ => Or.inl rfl
  | _ :: _, [] => Or.inr rfl
  | a :: as, b :: bs => by
    by_cases hab : a < b
    · exact Or.inl (by simp [strLeB, hab])
    · by_cases hba : b < a
      · exact Or.inr (by simp [strLeB, hba])
      · rcases strLeB_total as bs with h | h
        · exact Or.inl (by simp [strLeB, hab, hba, h])
        · exact Or.inr (by simp [strLeB, hab, hba, h])

theorem strLeB_trans : ∀ as bs cs : List Char,
    strLeB as bs = true → strLeB bs cs = true → strLeB as cs = true
  | [], _, _, _, _ => rfl
  | _ :: _, [], _, h1, _ => by simp [strLeB] at h1
  | _ :: _, _ :: _, [], _, h2 => by simp [strLeB] at h2
  | a :: as, b :: bs, c :: cs, h1, h2 => by
    rcases lt_trichotomy a b with hab | hab | hab
    · rcases lt_trichotomy b c with hbc | hbc | hbc
      · simp [strLeB, lt_trans hab hbc]
      · subst hbc; simp [strLeB, hab]
      · simp [strLeB, hbc, lt_asymm hbc] at h2
    · subst hab
      rcases lt_trichotomy a c with hac | hac | hac
      · simp [strLeB, hac]
      · subst hac
        simp only [strLeB, lt_irrefl, if_false] at h1 h2 ⊢
        exact strLeB_trans as bs cs h1 h2
      · simp [strLeB, hac, lt_asymm hac] at h2
    · simp [strLeB, hab, lt_asymm hab] at h1

theorem schedKeyLE_total (p q : Nat × String) : schedKeyLE p q ∨ schedKeyLE q p := by
  rcases Nat.lt_trichotomy p.1 q.1 with h | h | h
  · exact Or.inl (Or.inl h)
  · rcases strLeB_total p.2.data q.2.data with h2 | h2
    · exact Or.inl (Or.inr ⟨h, h2⟩)
    · exact Or.inr (Or.inr ⟨h.symm, h2⟩)
  · exact Or.inr (Or.inl h)

theorem schedKeyLE_trans {p q r : Nat × String}
    (h1 : schedKeyLE p q) (h2 : schedKeyLE q r) : schedKeyLE p r := by
  rcases h1 with h1 | ⟨h1, h1s⟩ <;> rcases h2 with h2 | ⟨h2, h2s⟩
  · exact Or.inl (Nat.lt_trans h1 h2)
  · exact Or.inl (h2 ▸ h1)
  · exact Or.inl (h1 ▸ h2)
  · exact Or.inr ⟨h1.trans h2, strLeB_trans _ _ _ h1s h2s⟩

theorem sorted_sortSchedule (docs : List Doc) :
    (sortSchedule docs).Pairwise schedLE := by
  haveI : IsTotal Doc schedLE :=
    ⟨fun a b => schedKeyLE_total (scheduleKey a) (scheduleKey b)⟩
  haveI : IsTrans Doc schedLE :=
    ⟨fun _ _ _ h1 h2 => schedKeyLE_trans h1 h2⟩
  exact List.sorted_insertionSort schedLE docs

theorem perm_sortSchedule (docs : List Doc) :
    (sortSchedule docs).Perm docs :=
  List.perm_insertionSort schedLE docs

theorem sorted_sortDescBy (f : String) (docs : List Doc) :
    (sortDescBy f docs).Pairwise (descLE f) := by
  haveI : IsTotal Doc (descLE f) := ⟨fun a b => Nat.le_total (dtKey b f) (dtKey a f)⟩
  haveI : IsTrans Doc (descLE f) := ⟨fun _ _ _ h1 h2 => Nat.le_trans h2 h1⟩
  exact List.sorted_insertionSort (descLE f) docs

theorem perm_sortDescBy (f : String) (docs : List Doc) :
    (sortDescBy f docs).Perm docs :=
  List.perm_insertionSort (descLE f) docs

theorem sorted_sortAscBy (f : String) (docs : List Doc) :
    (sortAscBy f docs).Pairwise (ascLE f) := by
  haveI : IsTotal Doc (ascLE f) := ⟨fun a b => Nat.le_total (dtKey a f) (dtKey b f)⟩
  haveI : IsTrans Doc (ascLE f) := ⟨fun _ _ _ h1 h2 => Nat.le_trans h1 h2⟩
  exact List.sorted_insertionSort (ascLE f) docs

theorem perm_sortAscBy (f : String) (docs : List Doc) :
    (sortAscBy f docs).Perm docs :=
  List.perm_insertionSort (ascLE f) docs

theorem strLeB_refl : ∀ as : List Char, strLeB as as = true
  | [] => rfl
  | a :: as => by simp [strLeB, lt_irrefl, strLeB_refl as]

theorem dtKey_eq_zero_of_none {d : Doc} {f : String} (h : Doc.get d f = none) :
    dtKey d f = 0 := by
  simp [dtKey, h]

/-! ### Claim theorems -/

/-- C1: the schedule listing serializes the documents sorted ascending by
the composite key (weekday index with Monday = 0 … Sunday = 6 and
unrecognized/missing day name = 7 after case-insensitive lookup, then
start_time as a string): the sorted sequence is a permutation of the input,
pairwise ordered under `schedLE`, and any record with an unrecognized day
(index 7) is positioned after every record with a recognized weekday
(index ≤ 6), regardless of start times. -/
theorem c1_schedule_ordering (docs : List Doc) :
    list_schedule docs = (sortSchedule docs).map _serialize
    ∧ (sortSchedule docs).Perm docs
    ∧ (sortSchedule docs).Pairwise schedLE
    ∧ (∀ p q (hp : p < (sortSchedule docs).length) (hq : q < (sortSchedule docs).length),
        schedDayIdx ((sortSchedule docs).get ⟨p, hp⟩) = 7 →
        schedDayIdx ((sortSchedule docs).get ⟨q, hq⟩) ≤ 6 →
        q < p) := by
  refine ⟨rfl, perm_sortSchedule docs, sorted_sortSchedule docs, ?_⟩
  intro p q hp hq h7 h6
  rcases Nat.lt_trichotomy q p with hlt | heq | hgt
  · exact hlt
  · exfalso
    subst heq
    rw [h7] at h6
    omega
  · exfalso
    have hr := (List.pairwise_iff_get.mp (sorted_sortSchedule docs))
      ⟨p, hp⟩ ⟨q, hq⟩ hgt
    rcases hr with hr | ⟨hr, _⟩
    · rw [show ((scheduleKey ((sortSchedule docs).get ⟨p, hp⟩)).1
          = schedDayIdx ((sortSchedule docs).get ⟨p, hp⟩)) from rfl, h7] at hr
      have : (scheduleKey ((sortSchedule docs).get ⟨q, hq⟩)).1
          = schedDayIdx ((sortSchedule docs).get ⟨q, hq⟩) := rfl
      omega
    · have hq7 : schedDayIdx ((sortSchedule docs).get ⟨q, hq⟩) = 7 := by
        rw [← h7]
        exact hr.symm
      omega

/-- C1 witness: with the unrecognized "Funday" record (earliest start time)
listed before a Monday record (latest start time), sorting places the
Monday record first and the "Funday" record last. -/
theorem c1_schedule_ordering_witness :
    schedDayIdx fundayDoc = 7 ∧ schedDayIdx monLateDoc = 0 ∧ (0 : Nat) < 1 :=
  ⟨by decide, by decide,
    (c1_schedule_ordering schedDemo).2.2.2 1 0 (by decide) (by decide)
      (by decide) (by decide)⟩

/-- C2 counterexample: under the descending `created_at` sort, a record
lacking the field compares equal to (not below) a record whose `created_at`
is the earliest possible timestamp, and the stable sort keeps the
missing-field record before it — so it does not appear after all records
that have the field. -/
theorem c2_missing_field_counterexample :
    Doc.get feedNoDate "created_at" = none
    ∧ Doc.get feedAtMin "created_at" = some (Value.vDatetime 0)
    ∧ sortDescBy "created_at" [feedNoDate, feedAtMin] = [feedNoDate, feedAtMin] := by
  decide

/-- C2 amended: the feed/lesson/grade listings serialize the documents
sorted descending by `created_at` / `date` / `date`; a record lacking the
field compares as the earliest possible timestamp and therefore appears
after every record whose field holds a strictly later timestamp (a record
whose field equals the earliest timestamp ties with it instead, keeping
input order). -/
theorem c2_desc_missing_sort_last (f : String) (docs : List Doc)
    (_hwf : ∀ d ∈ docs, dtwf d f = true) :
    list_feed docs = (sortDescBy "created_at" docs).map _serialize
    ∧ list_lessons docs = (sortDescBy "date" docs).map _serialize
    ∧ list_grades docs = (sortDescBy "date" docs).map _serialize
    ∧ (sortDescBy f docs).Perm docs
    ∧ (sortDescBy f docs).Pairwise (descLE f)
    ∧ (∀ p q (hp : p < (sortDescBy f docs).length) (hq : q < (sortDescBy f docs).length),
        Doc.get ((sortDescBy f docs).get ⟨p, hp⟩) f = none →
        0 < dtKey ((sortDescBy f docs).get ⟨q, hq⟩) f →
        q < p) := by
  refine ⟨rfl, rfl, rfl, perm_sortDescBy f docs, sorted_sortDescBy f docs, ?_⟩
  intro p q hp hq hnone hpos
  have hp0 : dtKey ((sortDescBy f docs).get ⟨p, hp⟩) f = 0 :=
    dtKey_eq_zero_of_none hnone
  rcases Nat.lt_trichotomy q p with hlt | heq | hgt
  · exact hlt
  · exfalso
    subst heq
    omega
  · exfalso
    have hr := (List.pairwise_iff_get.mp (sorted_sortDescBy f docs))
      ⟨p, hp⟩ ⟨q, hq⟩ hgt
    have : dtKey ((sortDescBy f docs).get ⟨q, hq⟩) f
        ≤ dtKey ((sortDescBy f docs).get ⟨p, hp⟩) f := hr
    omega

/-- C2 amended witness: a feed post without `created_at` ends up after one
with a strictly later `created_at`. -/
theorem c2_desc_missing_sort_last_witness :
    (∀ d ∈ [feedNoDate, feedLater], dtwf d "created_at" = true) ∧ (0 : Nat) < 1 :=
  ⟨by decide,
    (c2_desc_missing_sort_last "created_at" [feedNoDate, feedLater]
      (by decide)).2.2.2.2.2 1 0 (by decide) (by decide) (by decide) (by decide)⟩

/-- C3 counterexample: under the ascending `due_date` sort, a record lacking
the field ties with a record due at the earliest possible timestamp, and the
stable sort keeps the missing-field record after it — so it does not appear
before all records that have the field. -/
theorem c3_missing_field_counterexample :
    Doc.get assessNoDate "due_date" = none
    ∧ Doc.get assessAtMin "due_date" = some (Value.vDatetime 0)
    ∧ sortAscBy "due_date" [assessAtMin, assessNoDate] = [assessAtMin, assessNoDate] := by
  decide

/-- C3 amended: the assessment listing serializes the documents sorted
ascending by `due_date`; a record lacking the field compares as the earliest
possible timestamp and therefore appears before every record whose
`due_date` is strictly later (a record due exactly at the earliest timestamp
ties with it instead, keeping input order). -/
theorem c3_asc_missing_sort_first (docs : List Doc)
    (_hwf : ∀ d ∈ docs, dtwf d "due_date" = true) :
    list_assessments docs = (sortAscBy "due_date" docs).map _serialize
    ∧ (sortAscBy "due_date" docs).Perm docs
    ∧ (sortAscBy "due_date" docs).Pairwise (ascLE "due_date")
    ∧ (∀ p q (hp : p < (sortAscBy "due_date" docs).length)
        (hq : q < (sortAscBy "due_date" docs).length),
        Doc.get ((sortAscBy "due_date" docs).get ⟨p, hp⟩) "due_date" = none →
        0 < dtKey ((sortAscBy "due_date" docs).get ⟨q, hq⟩) "due_date" →
        p < q) := by
  refine ⟨rfl, perm_sortAscBy _ docs, sorted_sortAscBy _ docs, ?_⟩
  intro p q hp hq hnone hpos
  have hp0 : dtKey ((sortAscBy "due_date" docs).get ⟨p, hp⟩) "due_date" = 0 :=
    dtKey_eq_zero_of_none hnone
  rcases Nat.lt_trichotomy p q with hlt | heq | hgt
  · exact hlt
  · exfalso
    subst heq
    omega
  · exfalso
    have hr := (List.pairwise_iff_get.mp (sorted_sortAscBy "due_date" docs))
      ⟨q, hq⟩ ⟨p, hp⟩ hgt
    have : dtKey ((sortAscBy "due_date" docs).get ⟨q, hq⟩) "due_date"
        ≤ dtKey ((sortAscBy "due_date" docs).get ⟨p, hp⟩) "due_date" := hr
    omega

/-- C3 amended witness: an assessment without `due_date` ends up before one
with a strictly later `due_date`. -/
theorem c3_asc_missing_sort_first_witness :
    (∀ d ∈ [assessLater, assessNoDate], dtwf d "due_date" = true) ∧ (0 : Nat) < 1 :=
  ⟨by decide,
    (c3_asc_missing_sort_first [assessLater, assessNoDate]
      (by decide)).2.2.2 0 1 (by decide) (by decide) (by decide) (by decide)⟩

/-- C4: every collection ordering is stable — two records whose sort keys
compare equal keep their relative store-provided order, for the descending
and ascending date-keyed sorts and for the schedule sort. -/
theorem c4_sort_stability (docs : List Doc) (a b : Doc)
    (hab : [a, b].Sublist docs) :
    (∀ f, dtKey a f = dtKey b f →
      [a, b].Sublist (sortDescBy f docs) ∧ [a, b].Sublist (sortAscBy f docs))
    ∧ (scheduleKey a = scheduleKey b → [a, b].Sublist (sortSchedule docs)) := by
  constructor
  · intro f hk
    constructor
    · exact List.pair_sublist_insertionSort
        (show descLE f a b from le_of_eq hk.symm) hab
    · exact List.pair_sublist_insertionSort
        (show ascLE f a b from le_of_eq hk) hab
  · intro hk
    have hle : schedLE a b := by
      show schedKeyLE (scheduleKey a) (scheduleKey b)
      rw [hk]
      exact Or.inr ⟨rfl, strLeB_refl _⟩
    exact List.pair_sublist_insertionSort hle hab

/-- C9: with the document store never configured (`db is None`), the
collection accessor signals the uniform store-unavailable error for every
collection name — known or unknown — without attempting the operation, and
the fetch and insertion calls signal the same error identically. -/
theorem c9_store_unavailable (name : String) (filt : List (String × Value))
    (limit : Option Nat) (record : Doc) :
    _collection none name = Except.error storeUnavailable
    ∧ get_documents none name filt limit = Except.error storeUnavailable
    ∧ create_document none name record = Except.error storeUnavailable :=
  ⟨rfl, rfl, rfl⟩

/-- C4 witness: two grade records with the same `date` keep their input
order under the descending date sort. -/
theorem c4_sort_stability_witness :
    dtKey gradeA "date" = dtKey gradeB "date"
    ∧ [gradeA, gradeB].Sublist (sortDescBy "date" [gradeA, gradeB]) :=
  ⟨by decide,
    ((c4_sort_stability [gradeA, gradeB] gradeA gradeB
      (List.Sublist.refl _)).1 "date" (by decide)).1⟩

/-- C5: for every non-empty stored record, `_serialize` emits a field named
`id` holding the canonical string form of the internal identifier (`str` of
the `_id` value; for a store-assigned ObjectId, its hex string), the output
contains no `_id` field, and every other field is preserved (present exactly
when it was present, its value passing through the documented per-field
timestamp transform `serializeValue`). -/
theorem c5_serialize_id_fields (doc : Doc) (h : doc ≠ [])
    (hnd : (doc.map Prod.fst).Nodup) :
    Doc.get (_serialize doc) "id" = some (Value.vStr (pyStrOpt (Doc.get doc "_id")))
    ∧ (∀ oid, Doc.get doc "_id" = some (Value.vObjectId oid) →
        Doc.get (_serialize doc) "id" = some (Value.vStr oid))
    ∧ Doc.get (_serialize doc) "_id" = none
    ∧ (∀ k, k ≠ "id" → k ≠ "_id" →
        Doc.get (_serialize doc) k = (Doc.get doc k).map serializeValue) := by
  rw [serialize_of_ne_nil h]
  refine ⟨?_, ?_, ?_, ?_⟩
  · rw [Doc.get_map_serialize, Doc.get_pop_ne _ _ _ (by decide), Doc.get_set_self]
    rfl
  · intro oid hoid
    rw [Doc.get_map_serialize, Doc.get_pop_ne _ _ _ (by decide), Doc.get_set_self, hoid]
    rfl
  · rw [Doc.get_map_serialize, Doc.get_pop_self _ _ (Doc.nodup_keys_set doc "id" _ hnd)]
    rfl
  · intro k hk1 hk2
    rw [Doc.get_map_serialize, Doc.get_pop_ne _ _ _ hk2, Doc.get_set_ne _ _ _ _ hk1]

/-- C5 witness: serializing a concrete stored grade record yields
`id = "g1"`, the string form of its ObjectId. -/
theorem c5_serialize_id_fields_witness :
    storedGrade ≠ [] ∧ (storedGrade.map Prod.fst).Nodup
    ∧ Doc.get (_serialize storedGrade) "id" = some (Value.vStr "g1") :=
  ⟨by decide, by decide,
    (c5_serialize_id_fields storedGrade (by decide) (by decide)).2.1 "g1" (by decide)⟩

/-- C6: for every non-empty record and every field other than the identifier
pair, `_serialize` passes the value through `serializeValue`, which replaces
a value with its ISO-8601 text exactly when it is a timestamp and leaves
every non-timestamp value (including plain "HH:MM" strings) unchanged. -/
theorem c6_timestamp_transform (doc : Doc) (h : doc ≠ []) (k : String)
    (hk1 : k ≠ "id") (hk2 : k ≠ "_id") :
    Doc.get (_serialize doc) k = (Doc.get doc k).map serializeValue
    ∧ (∀ t, serializeValue (Value.vDatetime t) = Value.vStr (isoformat t))
    ∧ (∀ v, Value.isDatetime v = false → serializeValue v = v) := by
  refine ⟨?_, fun _ => rfl, fun _ hv => serializeValue_eq_self hv⟩
  rw [serialize_of_ne_nil h, Doc.get_map_serialize, Doc.get_pop_ne _ _ _ hk2,
    Doc.get_set_ne _ _ _ _ hk1]

/-- C6 witness: the plain "08:00" start time of a stored schedule record is
untouched by serialization. -/
theorem c6_timestamp_transform_witness :
    storedSched ≠ [] ∧ ("start_time" : String) ≠ "id" ∧ ("start_time" : String) ≠ "_id"
    ∧ Doc.get (_serialize storedSched) "start_time" = some (Value.vStr "08:00") := by
  have h := (c6_timestamp_transform storedSched (by decide) "start_time"
    (by decide) (by decide)).1
  exact ⟨by decide, by decide, by decide, by rw [h]; decide⟩

/-- C7 counterexample: re-serializing an already-serialized record is not a
no-op pass-through — the string `id` produced by the first pass is
overwritten with `"None"` (the string form of the now-absent `_id`). -/
theorem c7_reserialize_not_noop :
    _serialize alreadySerialized ≠ alreadySerialized
    ∧ Doc.get alreadySerialized "id" = some (Value.vStr "64ab")
    ∧ Doc.get alreadySerialized "_id" = none
    ∧ Doc.get (_serialize alreadySerialized) "id" = some (Value.vStr "None") := by
  decide

/-- C7 amended: re-serializing an already-serialized record (non-empty, no
`_id`, every value in non-timestamp string form) does not fail and passes
every field through unchanged except `id`, which is overwritten with the
string `"None"`. -/
theorem c7_reserialize_overwrites_id (doc : Doc) (h : doc ≠ [])
    (hm : Doc.get doc "_id" = none)
    (hs : ∀ p ∈ doc, Value.isDatetime p.2 = false) :
    _serialize doc = Doc.set doc "id" (Value.vStr "None") := by
  rw [serialize_of_ne_nil h, hm]
  have h2 : Doc.get (Doc.set doc "id" (Value.vStr (pyStrOpt none))) "_id" = none := by
    rw [Doc.get_set_ne _ _ _ _ (by decide)]
    exact hm
  rw [Doc.pop_of_get_none _ _ h2]
  have hall : ∀ p ∈ Doc.set doc "id" (Value.vStr (pyStrOpt none)),
      Value.isDatetime p.2 = false := by
    intro p hp
    rcases Doc.mem_set hp with hp2 | hp2
    · exact hs p hp2
    · rw [hp2]
      rfl
  rw [map_serializeValue_eq_self hall]
  rfl

/-- C7 amended witness: re-serializing the concrete already-serialized record
overwrites its `id` with `"None"` and keeps the rest. -/
theorem c7_reserialize_overwrites_id_witness :
    alreadySerialized ≠ [] ∧ Doc.get alreadySerialized "_id" = none
    ∧ _serialize alreadySerialized = Doc.set alreadySerialized "id" (Value.vStr "None") :=
  ⟨by decide, by decide,
    c7_reserialize_overwrites_id alreadySerialized (by decide) (by decide) (by decide)⟩

/-- C8: serializing the empty record returns it unchanged, and every
collection ordering maps the empty sequence to the empty sequence — the
date-keyed descending and ascending sorts for any field name, the schedule
sort, and each listing endpoint. -/
theorem c8_empty_inputs :
    _serialize [] = ([] : Doc)
    ∧ (∀ f, sortDescBy f [] = [] ∧ sortAscBy f [] = [])
    ∧ sortSchedule [] = []
    ∧ list_feed [] = [] ∧ list_schedule [] = [] ∧ list_lessons [] = []
    ∧ list_grades [] = [] ∧ list_assessments [] = [] :=
  ⟨rfl, fun _ => ⟨rfl, rfl⟩, rfl, rfl, rfl, rfl, rfl, rfl⟩

/-- C10: for every non-empty record lacking `_id` entirely, `_serialize`
signals no error (it is a total function on records) and returns the record
with `id` holding the string `"None"`, the string form of the absent
value. -/
theorem c10_absent_internal_id (doc : Doc) (h : doc ≠ [])
    (hm : Doc.get doc "_id" = none) :
    Doc.get (_serialize doc) "id" = some (Value.vStr "None") := by
  rw [serialize_of_ne_nil h, Doc.get_map_serialize, Doc.get_pop_ne _ _ _ (by decide),
    Doc.get_set_self, hm]
  rfl

/-- C10 witness: a concrete record without `_id` serializes to
`id = "None"`. -/
theorem c10_absent_internal_id_witness :
    authorOnly ≠ [] ∧ Doc.get authorOnly "_id" = none
    ∧ Doc.get (_serialize authorOnly) "id" = some (Value.vStr "None") :=
  ⟨by decide, by decide, c10_absent_internal_id authorOnly (by decide) (by decide)⟩

end SchoolLMS
